import Mathlib

/-!
Verification of the AdGuard External-DNS sidecar (`main.go`).

The sidecar is a periodic reconciliation agent: each cycle fetches the
remote user-rule list, decides whether the designated target rule sits in
the last position, and if not rewrites the whole list with every
occurrence of the target removed and a single copy appended at the end.
A small HTTP responder exposes liveness (`/healthz`) and readiness
(`/readyz`) probes backed by two shared booleans.

This file shallowly embeds the relevant Go functions
(`isRuleAtBottom`, `removeRule`, `enforceRulePosition`,
`fetchUserRules`, `updateUserRules`, the health handlers and the
scheduler loop of `main`) as pure Lean functions.  Network effects are
made explicit: an HTTP round trip is an input value describing what the
remote side did (connection failure, or a status code together with the
decoded body), so every embedded function is deterministic in its
arguments.
-/

namespace AdGuardSidecar

/-- The decoded shape of the `/control/filtering/status` response body
(Go struct `FilteringStatus`): the ordered `user_rules` list. -/
structure FilteringStatus where
  user_rules : List String
  deriving Repr, DecidableEq

/-- Error classification of a failed remote call, following the spec's
taxonomy.  `transportError` is a connection-level failure
(`client.Do` returning an error in Go); `protocolError` covers a
non-200 status code and an undecodable response body. -/
inductive NetError where
  | transportError
  | protocolError
  deriving Repr, DecidableEq

/-- Outcome of one HTTP round trip as observed by the Go code:
either the connection-level call fails, or a response arrives with a
status code and a body.  `decoded` is `some v` when the body decodes
into the expected shape `α` and `none` when decoding fails. -/
inductive HttpOutcome (α : Type) where
  | connFailure
  | response (status : Nat) (decoded : Option α)
  deriving Repr, DecidableEq

/-- Go `fetchUserRules`: issue the authenticated GET; propagate a
connection failure; reject a non-200 status; reject an undecodable
body; otherwise return the decoded `user_rules` list. -/
def fetchUserRules (out : HttpOutcome FilteringStatus) :
    Except NetError (List String) :=
  match out with
  | .connFailure => .error .transportError
  | .response status decoded =>
    if status ≠ 200 then .error .protocolError
    else
      match decoded with
      | none => .error .protocolError
      | some st => .ok st.user_rules

/-- Go `updateUserRules`: serialize `rules` as the JSON payload and POST
it (the `json.Marshal` of a string-slice payload cannot fail);
propagate a connection failure; reject a non-200 status; otherwise
succeed.  The response body is never decoded. -/
def updateUserRules (rules : List String) (out : HttpOutcome Unit) :
    Except NetError Unit :=
  match rules, out with
  | _, .connFailure => .error .transportError
  | _, .response status _ =>
    if status ≠ 200 then .error .protocolError else .ok ()

/-- Go `isRuleAtBottom`: `false` for the empty list, otherwise compare
the last element against the target byte-for-byte. -/
def isRuleAtBottom (rules : List String) (targetRule : String) : Bool :=
  if rules.isEmpty then false
  else rules.getLast? == some targetRule

/-- Go `removeRule`: keep, in order, every rule different from the
target (the Go loop appends exactly the rules with `rule != targetRule`
to a fresh slice). -/
def removeRule (rules : List String) (targetRule : String) : List String :=
  rules.filter (fun rule => rule ≠ targetRule)

/-- The Position Reconciler's decision, as named by the spec. -/
inductive Action where
  | NoOp
  | Reorder (newList : List String)
  deriving Repr, DecidableEq

/-- The pure decision embedded in Go `enforceRulePosition`
(lines after the fetch): `NoOp` when the target already sits last,
otherwise reorder to `removeRule rules target ++ [target]`. -/
def decide (rules : List String) (targetRule : String) : Action :=
  if isRuleAtBottom rules targetRule then .NoOp
  else .Reorder (removeRule rules targetRule ++ [targetRule])

/-- A remote call issued during one cycle: the fetch, or a write
carrying the full replacement list. -/
inductive RemoteCall where
  | fetchCall
  | writeCall (rules : List String)
  deriving Repr, DecidableEq

/-- Holds exactly on the fetch call. -/
def RemoteCall.isFetch : RemoteCall → Bool
  | .fetchCall => true
  | .writeCall _ => false

/-- Holds exactly on a write call. -/
def RemoteCall.isWrite : RemoteCall → Bool
  | .fetchCall => false
  | .writeCall _ => true

/-- The remote side's behaviour during one cycle: what the fetch round
trip yields, and what a write round trip yields for each possible
written list. -/
structure CycleEnv where
  fetchOutcome : HttpOutcome FilteringStatus
  writeOutcome : List String → HttpOutcome Unit

/-- Result of one reconciliation cycle (Go `enforceRulePosition`):
the fetch failed; the target was already last so nothing was written;
the corrected list was written successfully; or the write of the
corrected list failed. -/
inductive CycleOutcome where
  | fetchFailed (e : NetError)
  | noWrite (rules : List String)
  | wrote (newRules : List String)
  | writeFailed (newRules : List String) (e : NetError)
  deriving Repr

/-- Go `enforceRulePosition`: fetch the rules (propagating failure);
return without writing when `isRuleAtBottom`; otherwise build
`removeRule rules target ++ [target]` and write it.  The second
component records, in order, every remote call the cycle issued. -/
def enforceRulePosition (targetRule : String) (env : CycleEnv) :
    CycleOutcome × List RemoteCall :=
  match fetchUserRules env.fetchOutcome with
  | .error e => (.fetchFailed e, [.fetchCall])
  | .ok rules =>
    if isRuleAtBottom rules targetRule then
      (.noWrite rules, [.fetchCall])
    else
      let updatedRules := removeRule rules targetRule ++ [targetRule]
      match updateUserRules updatedRules (env.writeOutcome updatedRules) with
      | .error e => (.writeFailed updatedRules e, [.fetchCall, .writeCall updatedRules])
      | .ok _ => (.wrote updatedRules, [.fetchCall, .writeCall updatedRules])

/-- A cycle returns success (Go `enforceRulePosition` returns `nil`)
exactly when the fetch succeeded and either no write was needed or the
write succeeded. -/
def cycleOk : CycleOutcome → Bool
  | .noWrite _ => true
  | .wrote _ => true
  | .fetchFailed _ => false
  | .writeFailed _ _ => false

/-- The remote list after a successful cycle, absent any other writer:
the fetched list when nothing was written, the written list otherwise.
`none` when the cycle failed (the remote state is then unknown). -/
def remoteListAfter : CycleOutcome → Option (List String)
  | .noWrite rules => some rules
  | .wrote newRules => some newRules
  | .fetchFailed _ => none
  | .writeFailed _ _ => none

/-- The two package-level health booleans of `main.go`
(`healthy`, `lastCheckOK`). -/
structure HealthState where
  healthy : Bool
  lastCheckOK : Bool
  deriving Repr, DecidableEq

/-- Both flags are initialized to `true` at package level. -/
def initialHealthState : HealthState :=
  { healthy := true, lastCheckOK := true }

/-- One iteration of the scheduler loop in `main`: run
`enforceRulePosition` and set `lastCheckOK` to `true` on success and to
`false` on error; `healthy` is not touched by the loop. -/
def schedulerStep (targetRule : String) (s : HealthState) (env : CycleEnv) :
    HealthState :=
  if cycleOk (enforceRulePosition targetRule env).1 then
    { s with lastCheckOK := true }
  else
    { s with lastCheckOK := false }

/-- The scheduler loop over a finite prefix of ticks: each tick runs one
cycle against that tick's remote behaviour, regardless of earlier
outcomes. -/
def schedulerRun (targetRule : String) (envs : List CycleEnv)
    (s : HealthState) : HealthState :=
  envs.foldl (schedulerStep targetRule) s

/-- The `/healthz` handler of Go `startHealthServer`: 200 `"OK"` when
`healthy && lastCheckOK`, else 503 `"UNHEALTHY"`. -/
def healthzHandler (s : HealthState) : Nat × String :=
  if s.healthy && s.lastCheckOK then (200, "OK")
  else (503, "UNHEALTHY")

/-- The `/readyz` handler of Go `startHealthServer`: unconditionally
200 `"READY"`. -/
def readyzHandler (_s : HealthState) : Nat × String :=
  (200, "READY")

/-- Startup actions of `main`, in program order: the health server
goroutine is started before the initial synchronous cycle runs. -/
inductive StartupEvent where
  | startHealthServer
  | initialCycle
  deriving Repr, DecidableEq

/-- The order of the two startup actions in `main`:
`go startHealthServer(...)` precedes the initial
`enforceRulePosition(config)` call. -/
def mainStartupOrder : List StartupEvent :=
  [.startHealthServer, .initialCycle]

/-! ### Helper lemmas -/

theorem isRuleAtBottom_iff (rules : List String) (t : String) :
    isRuleAtBottom rules t = true ↔ rules.getLast? = some t := by
  cases rules with
  | nil => simp [isRuleAtBottom]
  | cons a l => simp [isRuleAtBottom]

theorem removeRule_not_mem (rules : List String) (t : String) :
    t ∉ removeRule rules t := by
  intro h
  rcases List.mem_filter.mp h with ⟨-, hdec⟩
  simp at hdec

theorem removeRule_append (l₁ l₂ : List String) (t : String) :
    removeRule (l₁ ++ l₂) t = removeRule l₁ t ++ removeRule l₂ t := by
  simp [removeRule, List.filter_append]

theorem removeRule_idem (rules : List String) (t : String) :
    removeRule (removeRule rules t) t = removeRule rules t := by
  simp [removeRule, List.filter_filter]

theorem removeRule_singleton_self (t : String) :
    removeRule [t] t = [] := by
  simp [removeRule]

theorem removeRule_of_not_mem (rules : List String) (t : String)
    (h : t ∉ rules) : removeRule rules t = rules := by
  apply List.filter_eq_self.mpr
  intro a ha
  simp only [ne_eq, decide_eq_true_eq]
  intro rfl_eq
  exact h (rfl_eq ▸ ha)

theorem decide_reorder_eq (L : List String) (t : String) (L' : List String)
    (h : decide L t = .Reorder L') : L' = removeRule L t ++ [t] := by
  unfold decide at h
  split at h
  · exact absurd h (by simp)
  · exact (Action.Reorder.injEq _ _ ▸ h).symm

theorem getLast?_append_single (l : List String) (t : String) :
    (l ++ [t]).getLast? = some t := by
  rw [List.getLast?_append_cons]
  rfl

theorem mem_of_getLast?_eq (l : List String) (t : String)
    (h : l.getLast? = some t) : t ∈ l := by
  have hl : l.dropLast ++ [t] = l :=
    List.dropLast_append_getLast? t (by simp [Option.mem_def, h])
  rw [← hl]
  simp

/-! ### Claim theorems -/

/-- C2: when the reconciler decides `Reorder L'`, the new list is the
old one with every occurrence of the target removed, in order, followed
by exactly one trailing target; hence `L'` holds exactly one occurrence
of the target, in last position, and `L'` with the target removed
equals `L` with the target removed. -/
theorem C2_reorder_shape (L : List String) (T : String) (L' : List String)
    (h : decide L T = .Reorder L') :
    L' = removeRule L T ++ [T] ∧
    L'.count T = 1 ∧
    L'.getLast? = some T ∧
    removeRule L' T = removeRule L T := by
  have hL' := decide_reorder_eq L T L' h
  subst hL'
  refine ⟨rfl, ?_, getLast?_append_single _ _, ?_⟩
  · rw [List.count_append]
    have h0 : (removeRule L T).count T = 0 :=
      List.count_eq_zero.mpr (removeRule_not_mem L T)
    simp [h0, List.count_singleton]
  · rw [removeRule_append, removeRule_idem, removeRule_singleton_self,
      List.append_nil]

/-- C2 witness: on `L = ["a", "t", "b"]` with target `"t"` the decision
is a reorder and the reordered list has the stated shape. -/
theorem C2_witness :
    decide ["a", "t", "b"] "t" = .Reorder ["a", "b", "t"] ∧
    (["a", "b", "t"] = removeRule ["a", "t", "b"] "t" ++ ["t"] ∧
     List.count "t" ["a", "b", "t"] = 1 ∧
     List.getLast? ["a", "b", "t"] = some "t" ∧
     removeRule ["a", "b", "t"] "t" = removeRule ["a", "t", "b"] "t") :=
  ⟨by decide, C2_reorder_shape ["a", "t", "b"] "t" ["a", "b", "t"] (by decide)⟩

/-- C3: for a non-empty fetched list whose last element equals the
target exactly, the decision is `NoOp`, the cycle performs no write
call (the call trace is just the fetch) and returns success with the
fetched list left as the remote state. -/
theorem C3_last_match_noop (T : String) (env : CycleEnv) (L : List String)
    (_hne : L ≠ [])
    (hlast : L.getLast? = some T)
    (hfetch : fetchUserRules env.fetchOutcome = .ok L) :
    decide L T = .NoOp ∧
    (enforceRulePosition T env).1 = .noWrite L ∧
    (enforceRulePosition T env).2 = [.fetchCall] ∧
    cycleOk (enforceRulePosition T env).1 = true ∧
    remoteListAfter (enforceRulePosition T env).1 = some L := by
  have hbot : isRuleAtBottom L T = true := (isRuleAtBottom_iff L T).mpr hlast
  refine ⟨by simp [decide, hbot], ?_, ?_, ?_, ?_⟩ <;>
    simp [enforceRulePosition, hfetch, hbot, cycleOk, remoteListAfter]

/-- C3 witness: fetched list `["a", "t"]`, target `"t"`. -/
theorem C3_witness :
    decide ["a", "t"] "t" = .NoOp ∧
    (enforceRulePosition "t"
      ⟨.response 200 (some ⟨["a", "t"]⟩), fun _ => .connFailure⟩).1 =
        .noWrite ["a", "t"] ∧
    (enforceRulePosition "t"
      ⟨.response 200 (some ⟨["a", "t"]⟩), fun _ => .connFailure⟩).2 =
        [.fetchCall] ∧
    cycleOk (enforceRulePosition "t"
      ⟨.response 200 (some ⟨["a", "t"]⟩), fun _ => .connFailure⟩).1 = true ∧
    remoteListAfter (enforceRulePosition "t"
      ⟨.response 200 (some ⟨["a", "t"]⟩), fun _ => .connFailure⟩).1 =
        some ["a", "t"] :=
  C3_last_match_noop "t"
    ⟨.response 200 (some ⟨["a", "t"]⟩), fun _ => .connFailure⟩
    ["a", "t"] (by decide) (by decide) (by rfl)

/-- C4: the decision function is idempotent — a decided reorder list is
itself a `NoOp` input — and a second cycle that fetches the list
written by a successful reorder performs no write. -/
theorem C4_decide_idempotent (L : List String) (T : String) (L' : List String)
    (h : decide L T = .Reorder L') :
    decide L' T = .NoOp ∧
    ∀ env' : CycleEnv, fetchUserRules env'.fetchOutcome = .ok L' →
      (enforceRulePosition T env').1 = .noWrite L' ∧
      (enforceRulePosition T env').2 = [.fetchCall] := by
  have hL' := decide_reorder_eq L T L' h
  subst hL'
  have hlast := getLast?_append_single (removeRule L T) T
  have hbot : isRuleAtBottom (removeRule L T ++ [T]) T = true :=
    (isRuleAtBottom_iff _ _).mpr hlast
  refine ⟨by simp [decide, hbot], ?_⟩
  intro env' hfetch
  constructor <;> simp [enforceRulePosition, hfetch, hbot]

/-- C4 witness: reorder of `["t", "a"]` with target `"t"` yields
`["a", "t"]`, on which the decision is `NoOp` and a second cycle
fetching it performs no write. -/
theorem C4_witness :
    decide ["a", "t"] "t" = Action.NoOp ∧
    ((enforceRulePosition "t"
      ⟨.response 200 (some ⟨["a", "t"]⟩), fun _ => .connFailure⟩).1 =
        .noWrite ["a", "t"] ∧
     (enforceRulePosition "t"
      ⟨.response 200 (some ⟨["a", "t"]⟩), fun _ => .connFailure⟩).2 =
        [.fetchCall]) := by
  have h := C4_decide_idempotent ["t", "a"] "t" ["a", "t"] (by decide)
  exact ⟨h.1, h.2 ⟨.response 200 (some ⟨["a", "t"]⟩), fun _ => .connFailure⟩
    (by rfl)⟩

/-- C5: the empty list always decides `Reorder [T]`, and any list not
containing the target still decides a reorder that appends the target
at the end. -/
theorem C5_empty_or_absent_reorder (L : List String) (T : String) :
    decide [] T = .Reorder [T] ∧
    (T ∉ L → decide L T = .Reorder (L ++ [T])) := by
  constructor
  · simp [decide, isRuleAtBottom, removeRule]
  · intro hT
    have hbot : isRuleAtBottom L T = false := by
      cases hb : isRuleAtBottom L T with
      | false => rfl
      | true =>
        exact absurd (mem_of_getLast?_eq L T ((isRuleAtBottom_iff L T).mp hb))
          hT
    simp [decide, hbot, removeRule_of_not_mem L T hT]

/-- C5 witness: empty list, and `["a", "b"]` which does not contain the
target `"t"`. -/
theorem C5_witness :
    decide [] "t" = .Reorder ["t"] ∧
    decide ["a", "b"] "t" = .Reorder ["a", "b", "t"] :=
  ⟨(C5_empty_or_absent_reorder ["a", "b"] "t").1,
   (C5_empty_or_absent_reorder ["a", "b"] "t").2 (by decide)⟩

/-- C1: a cycle that returns success leaves the remote list ending in
the target: either nothing was written because the fetched list already
ends in the target, or the list passed to the write has the target as
its last element, so the next fetch (absent any other writer) observes
the target last. -/
theorem C1_success_leaves_target_last (T : String) (env : CycleEnv)
    (hok : cycleOk (enforceRulePosition T env).1 = true) :
    ∃ l : List String,
      remoteListAfter (enforceRulePosition T env).1 = some l ∧
      l.getLast? = some T ∧
      ((enforceRulePosition T env).1 = .noWrite l ∨
       (enforceRulePosition T env).1 = .wrote l) := by
  rcases hf : fetchUserRules env.fetchOutcome with e | rules
  · rw [show (enforceRulePosition T env).1 = .fetchFailed e by
      simp [enforceRulePosition, hf]] at hok
    simp [cycleOk] at hok
  · by_cases hbot : isRuleAtBottom rules T = true
    · refine ⟨rules, ?_⟩
      rw [show (enforceRulePosition T env).1 = .noWrite rules by
        simp [enforceRulePosition, hf, hbot]]
      exact ⟨rfl, (isRuleAtBottom_iff rules T).mp hbot, Or.inl rfl⟩
    · rcases hw : updateUserRules (removeRule rules T ++ [T])
        (env.writeOutcome (removeRule rules T ++ [T])) with e | u
      · rw [show (enforceRulePosition T env).1 =
            .writeFailed (removeRule rules T ++ [T]) e by
          simp [enforceRulePosition, hf, hbot, hw]] at hok
        simp [cycleOk] at hok
      · refine ⟨removeRule rules T ++ [T], ?_⟩
        rw [show (enforceRulePosition T env).1 =
            .wrote (removeRule rules T ++ [T]) by
          simp [enforceRulePosition, hf, hbot, hw]]
        exact ⟨rfl, getLast?_append_single _ _, Or.inr rfl⟩

/-- C1 witness: a fetched list not ending in the target, with a remote
that accepts the write; the cycle succeeds and the written list ends in
the target. -/
theorem C1_witness :
    cycleOk (enforceRulePosition "t"
      ⟨.response 200 (some ⟨["t", "a"]⟩),
       fun _ => .response 200 (some ())⟩).1 = true ∧
    ∃ l : List String,
      remoteListAfter (enforceRulePosition "t"
        ⟨.response 200 (some ⟨["t", "a"]⟩),
         fun _ => .response 200 (some ())⟩).1 = some l ∧
      l.getLast? = some "t" ∧
      ((enforceRulePosition "t"
        ⟨.response 200 (some ⟨["t", "a"]⟩),
         fun _ => .response 200 (some ())⟩).1 = .noWrite l ∨
       (enforceRulePosition "t"
        ⟨.response 200 (some ⟨["t", "a"]⟩),
         fun _ => .response 200 (some ())⟩).1 = .wrote l) :=
  ⟨by rfl,
   C1_success_leaves_target_last "t"
     ⟨.response 200 (some ⟨["t", "a"]⟩), fun _ => .response 200 (some ())⟩
     (by rfl)⟩

/-- C6: the fetch returns the decoded ordered list exactly on a 200
response with a decodable body, fails with a protocol error exactly on
a non-200 status or an undecodable body, and fails with a transport
error exactly on a connection-level failure; the write fails under the
same status conditions (its body is never decoded) and returns unit on
success. -/
theorem C6_client_error_semantics (fo : HttpOutcome FilteringStatus)
    (rules l : List String) (wo : HttpOutcome Unit) :
    (fetchUserRules fo = .ok l ↔
      ∃ st : FilteringStatus,
        fo = .response 200 (some st) ∧ st.user_rules = l) ∧
    (fetchUserRules fo = .error .transportError ↔ fo = .connFailure) ∧
    (fetchUserRules fo = .error .protocolError ↔
      ∃ (status : Nat) (d : Option FilteringStatus),
        fo = .response status d ∧ (status ≠ 200 ∨ d = none)) ∧
    (updateUserRules rules wo = .ok () ↔
      ∃ b : Option Unit, wo = .response 200 b) ∧
    (updateUserRules rules wo = .error .transportError ↔
      wo = .connFailure) ∧
    (updateUserRules rules wo = .error .protocolError ↔
      ∃ (status : Nat) (b : Option Unit),
        wo = .response status b ∧ status ≠ 200) := by
  refine ⟨?_, ?_, ?_, ?_, ?_, ?_⟩
  · rcases fo with _ | ⟨status, d⟩
    · simp [fetchUserRules]
    · by_cases hs : status = 200
      · subst hs
        rcases d with _ | st <;> simp [fetchUserRules]
      · simp [fetchUserRules, hs]
  · rcases fo with _ | ⟨status, d⟩
    · simp [fetchUserRules]
    · by_cases hs : status = 200
      · subst hs
        rcases d with _ | st <;> simp [fetchUserRules]
      · simp [fetchUserRules, hs]
  · rcases fo with _ | ⟨status, d⟩
    · simp [fetchUserRules]
    · by_cases hs : status = 200
      · subst hs
        rcases d with _ | st
        · simp [fetchUserRules]
          exact ⟨200, none, ⟨rfl, rfl⟩, Or.inr rfl⟩
        · simp [fetchUserRules]
      · simp [fetchUserRules, hs]
        exact ⟨status, d, ⟨rfl, rfl⟩, Or.inl hs⟩
  · rcases wo with _ | ⟨status, b⟩
    · simp [updateUserRules]
    · by_cases hs : status = 200
      · subst hs
        simp [updateUserRules]
      · simp [updateUserRules, hs]
  · rcases wo with _ | ⟨status, b⟩
    · simp [updateUserRules]
    · by_cases hs : status = 200 <;> simp [updateUserRules, hs]
  · rcases wo with _ | ⟨status, b⟩
    · simp [updateUserRules]
    · by_cases hs : status = 200
      · subst hs
        simp [updateUserRules]
      · simp [updateUserRules, hs]

/-- C7: after any cycle the loop's `lastCheckOK` flag equals the
cycle's success bit (so a failed cycle sets it to `false`), the loop
never touches `healthy`, the scheduler processes the next tick after
any finite history of outcomes (no termination, crash, or change of
cadence on failure — the fixed-period ticker merely indexes the
ticks), and a single cycle issues exactly one fetch call and at most
one write call, with no retry. -/
theorem C7_scheduler_loop_behavior (T : String) (s : HealthState)
    (envs : List CycleEnv) (env : CycleEnv) :
    (schedulerStep T s env).lastCheckOK =
      cycleOk (enforceRulePosition T env).1 ∧
    (schedulerStep T s env).healthy = s.healthy ∧
    schedulerRun T (envs ++ [env]) s =
      schedulerStep T (schedulerRun T envs s) env ∧
    (enforceRulePosition T env).2.countP (fun c => c.isFetch) = 1 ∧
    (enforceRulePosition T env).2.countP (fun c => c.isWrite) ≤ 1 := by
  have hshape : (enforceRulePosition T env).2 = [.fetchCall] ∨
      ∃ lw, (enforceRulePosition T env).2 = [.fetchCall, .writeCall lw] := by
    rcases hf : fetchUserRules env.fetchOutcome with e | rules
    · exact Or.inl (by simp [enforceRulePosition, hf])
    · by_cases hbot : isRuleAtBottom rules T = true
      · exact Or.inl (by simp [enforceRulePosition, hf, hbot])
      · rcases hw : updateUserRules (removeRule rules T ++ [T])
          (env.writeOutcome (removeRule rules T ++ [T])) with e | u
        · exact Or.inr ⟨removeRule rules T ++ [T],
            by simp [enforceRulePosition, hf, hbot, hw]⟩
        · exact Or.inr ⟨removeRule rules T ++ [T],
            by simp [enforceRulePosition, hf, hbot, hw]⟩
  refine ⟨?_, ?_, ?_, ?_, ?_⟩
  · unfold schedulerStep
    split <;> simp_all
  · unfold schedulerStep
    split <;> rfl
  · simp [schedulerRun, List.foldl_append]
  · rcases hshape with h | ⟨lw, h⟩ <;>
      simp [h, List.countP, List.countP.go, RemoteCall.isFetch,
        RemoteCall.isWrite]
  · rcases hshape with h | ⟨lw, h⟩ <;>
      simp [h, List.countP, List.countP.go, RemoteCall.isFetch,
        RemoteCall.isWrite]

/-- C8: the liveness probe answers 200 `"OK"` exactly when the
responder is up (`healthy`) and the most recent cycle succeeded
(`lastCheckOK`), answering 503 `"UNHEALTHY"` otherwise, while the
readiness probe always answers 200 `"READY"` regardless of cycle
outcome. -/
theorem C8_probe_semantics (s : HealthState) :
    (healthzHandler s = (200, "OK") ↔
      s.healthy = true ∧ s.lastCheckOK = true) ∧
    (healthzHandler s = (200, "OK") ∨
      healthzHandler s = (503, "UNHEALTHY")) ∧
    readyzHandler s = (200, "READY") := by
  rcases s with ⟨h, l⟩
  cases h <;> cases l <;> simp [healthzHandler, readyzHandler]

/-- C10: both health flags start `true` and the health server is
started before the initial cycle in `main`, so a liveness probe served
before the first cycle completes answers 200 `"OK"`. -/
theorem C10_initial_probe_healthy :
    initialHealthState.healthy = true ∧
    initialHealthState.lastCheckOK = true ∧
    healthzHandler initialHealthState = (200, "OK") ∧
    mainStartupOrder.indexOf .startHealthServer <
      mainStartupOrder.indexOf .initialCycle := by
  refine ⟨rfl, rfl, rfl, ?_⟩
  decide

end AdGuardSidecar
